import Mathlib

/-!
Shallow embedding of the snapper file-backup tool (src/main.rs).

The program watches a configured set of files and, on each debounced write
event, copies the file into a per-rule backup directory under a timestamped
name.  Filesystem and watcher behaviour is modelled by an oracle structure
`World`; every observable side effect (log line, directory creation, file
copy, watch registration) is recorded in an explicit effect trace.
-/

set_option autoImplicit false

namespace Snapper

/-- A UTC wall-clock instant at microsecond resolution, as captured by
`chrono::Utc::now()` inside `process_write_event`. -/
structure Timestamp where
  year : Nat
  month : Nat
  day : Nat
  hour : Nat
  minute : Nat
  second : Nat
  micro : Nat
  deriving DecidableEq

/-- Decimal digit character. -/
def digitChar : Nat → Char
  | 0 => '0'
  | 1 => '1'
  | 2 => '2'
  | 3 => '3'
  | 4 => '4'
  | 5 => '5'
  | 6 => '6'
  | 7 => '7'
  | 8 => '8'
  | _ => '9'

/-- Decimal digits of `n`, most significant first, accumulated onto `acc`.
Fuel-indexed so that the recursion is structural. -/
def natDigitsAux : Nat → Nat → List Char → List Char
  | 0, _, acc => acc
  | fuel + 1, n, acc =>
    if n < 10 then digitChar n :: acc
    else natDigitsAux fuel (n / 10) (digitChar (n % 10) :: acc)

/-- Decimal rendering of a natural number. -/
def natToString (n : Nat) : String :=
  String.mk (natDigitsAux (n + 1) n [])

/-- Zero-pad the decimal rendering of `n` to at least `width` characters,
as the `chrono` format specifiers `%Y`, `%m`, `%d`, `%H`, `%M`, `%S`, `%6f` do. -/
def padNum (width n : Nat) : String :=
  let s := natToString n
  if s.length < width then String.mk (List.replicate (width - s.length) '0') ++ s
  else s

/-- The timestamp string produced by `curr_time.format("%Y%m%d-%H%M%S-%6f")`. -/
def formatTimestamp (t : Timestamp) : String :=
  padNum 4 t.year ++ padNum 2 t.month ++ padNum 2 t.day ++ "-" ++
    padNum 2 t.hour ++ padNum 2 t.minute ++ padNum 2 t.second ++ "-" ++
    padNum 6 t.micro

/-- The backup file name computed by `process_write_event`:
`format!("{}-{}", curr_time.format("%Y%m%d-%H%M%S-%6f"), file_name)`,
i.e. the timestamp string, a hyphen, then the base name. -/
def backupFileName (t : Timestamp) (base : String) : String :=
  formatTimestamp t ++ "-" ++ base

/-! ### Rule table (Rust `HashMap<PathBuf, PathBuf>`) -/

/-- Insert with overwrite, the semantics of `HashMap::insert` (and hence of
`collect::<HashMap<_, _>>`, which inserts each pair in iteration order):
if the key is present its value is replaced, otherwise the pair is added. -/
def hmInsert : List (String × String) → String → String → List (String × String)
  | [], k, v => [(k, v)]
  | (k', v') :: rest, k, v =>
    if k' = k then (k, v) :: rest else (k', v') :: hmInsert rest k v

/-- Lookup, the semantics of `HashMap::get`. -/
def hmGet : List (String × String) → String → Option String
  | [], _ => none
  | (k', v') :: rest, k => if k' = k then some v' else hmGet rest k

/-- The map built by `collect::<HashMap<_, _>>` from a sequence of pairs:
each pair is inserted in order, later pairs overwriting earlier ones. -/
def buildTable (rules : List (String × String)) : List (String × String) :=
  rules.foldl (fun t kv => hmInsert t kv.1 kv.2) []

/-- The value of the last pair in `rules` whose key is `k`, if any:
"last writer" in configuration order. -/
def lastMatch : List (String × String) → String → Option String
  | [], _ => none
  | (k', v') :: rest, k =>
    match lastMatch rest k with
    | some v => some v
    | none => if k' = k then some v' else none

/-- Number of pairs in the list whose key is `k`. -/
def countKey : List (String × String) → String → Nat
  | [], _ => 0
  | (k', _) :: rest, k => (if k' = k then 1 else 0) + countKey rest k

/-! ### Effects and the filesystem/watcher oracle -/

/-- An observable side effect of the program.  Log effects carry the path
that the corresponding log message identifies. -/
inductive Effect where
  | logDebug (msg : String)
  | logError (msg : String)
  | mkdirAll (p : String)
  | copyFile (src dst : String)
  | watchRegister (p : String)
  deriving DecidableEq

/-- Whether the effect writes to the filesystem. -/
def Effect.isFsWrite : Effect → Bool
  | .mkdirAll _ => true
  | .copyFile _ _ => true
  | _ => false

/-- Whether the effect is only a log line. -/
def Effect.isLog : Effect → Bool
  | .logDebug _ => true
  | .logError _ => true
  | _ => false

/-- Oracle for the environment: path resolution, file metadata queries, and
the success or failure of each fallible operation the program performs. -/
structure World where
  canon : String → Option String
  isFile : String → Bool
  pathExists : String → Bool
  isDir : String → Bool
  mkdirOk : String → Bool
  watcherInitOk : Bool
  watchOk : String → Bool
  fileNameOf : String → Option String
  osStrOk : String → Bool
  copyOk : String → String → Bool
  now : Timestamp

/-! ### Backup writer (`process_write_event`) -/

/-- The failure cases of `process_write_event` (the `anyhow` errors, in the
order in which the function can produce them). -/
inductive BackupError where
  | pathResolution
  | noRuleForPath
  | notAFile
  | nameEncoding
  | copyFailed
  deriving DecidableEq

/-- Embedding of `process_write_event(changed_path, output_dir_lookup)`:
canonicalize the changed path, look it up in the rule table, capture the
current time, build the backup name, and copy.  Returns the `Result`
together with the trace of effects performed. -/
def process_write_event (w : World) (table : List (String × String))
    (changed_path : String) : Except BackupError Unit × List Effect :=
  match w.canon changed_path with
  | none => (Except.error BackupError.pathResolution, [])
  | some cp =>
    match hmGet table cp with
    | none => (Except.error BackupError.noRuleForPath, [])
    | some backupDir =>
      match w.fileNameOf cp with
      | none => (Except.error BackupError.notAFile, [])
      | some base =>
        if w.osStrOk base then
          let dst := backupDir ++ "/" ++ backupFileName w.now base
          if w.copyOk cp dst then
            (Except.ok (), [Effect.logDebug cp, Effect.copyFile cp dst])
          else
            (Except.error BackupError.copyFailed, [Effect.logDebug cp])
        else (Except.error BackupError.nameEncoding, [])

/-! ### Event dispatcher (the `loop` in `main`) -/

/-- The `notify::DebouncedEvent` variants. -/
inductive DebouncedEvent where
  | noticeWrite (p : String)
  | noticeRemove (p : String)
  | create (p : String)
  | write (p : String)
  | chmod (p : String)
  | remove (p : String)
  | rename (old next : String)
  | rescan
  | errorEvent
  deriving DecidableEq

/-- One item delivered by `event_receiver.recv()`: either an event, or the
`Err` value signalling that the channel is disconnected. -/
inductive RecvItem where
  | disconnected
  | event (e : DebouncedEvent)
  deriving DecidableEq

/-- The effects of one arm of the `match` in `main`'s dispatch loop.  Only
the `Write` arm calls `process_write_event`; its failure is logged at error
level and swallowed.  Every other arm only logs. -/
def handleEvent (w : World) (table : List (String × String)) :
    DebouncedEvent → List Effect
  | .noticeWrite p => [Effect.logDebug p]
  | .noticeRemove p => [Effect.logDebug p]
  | .create p => [Effect.logDebug p]
  | .write p =>
    let r := process_write_event w table p
    match r.1 with
    | Except.ok _ => Effect.logDebug p :: r.2
    | Except.error _ => Effect.logDebug p :: r.2 ++ [Effect.logError p]
  | .chmod p => [Effect.logDebug p]
  | .remove p => [Effect.logDebug p]
  | .rename old next => [Effect.logDebug (old ++ next)]
  | .rescan => [Effect.logDebug ""]
  | .errorEvent => [Effect.logError ""]

/-- How a (finite prefix of the) dispatch loop ends: `panicked` models the
`unwrap` panic on a disconnected channel; `ranOut` means the modelled finite
stream was exhausted with the loop still running. -/
inductive LoopOutcome where
  | panicked
  | ranOut
  deriving DecidableEq

/-- The dispatch loop of `main`, run over a finite prefix of the received
items: `recv().unwrap()` panics on disconnection, otherwise the event is
handled and the loop repeats. -/
def dispatchLoop (w : World) (table : List (String × String)) :
    List RecvItem → List Effect × LoopOutcome
  | [] => ([], LoopOutcome.ranOut)
  | RecvItem.disconnected :: _ => ([], LoopOutcome.panicked)
  | RecvItem.event e :: rest =>
    let r := dispatchLoop w table rest
    (handleEvent w table e ++ r.1, r.2)

/-! ### Watch registrar (`start_file_watcher`) -/

/-- Validation of one rule, as in the loop body of `start_file_watcher`:
the watched path must be a regular file, and the backup directory must not
be an existing non-directory. -/
def ruleValid (w : World) (fp bd : String) : Bool :=
  w.isFile fp && !(w.pathExists bd && !w.isDir bd)

/-- Result of processing one rule during registration. -/
inductive RuleStep where
  | skipped
  | watched
  | panicked
  deriving DecidableEq

/-- The body of the `for` loop in `start_file_watcher` for one rule:
validation failures log and `continue`; a `create_dir_all` failure is only
logged; `watcher.watch(..).expect(..)` panics when watching fails. -/
def processRule (w : World) (fp bd : String) : List Effect × RuleStep :=
  if !w.isFile fp then ([Effect.logError fp], RuleStep.skipped)
  else if w.pathExists bd && !w.isDir bd then ([Effect.logError bd], RuleStep.skipped)
  else
    let mkEffs :=
      if w.mkdirOk bd then [Effect.mkdirAll bd]
      else [Effect.mkdirAll bd, Effect.logError bd]
    if w.watchOk fp then
      (mkEffs ++ [Effect.logDebug fp, Effect.watchRegister fp], RuleStep.watched)
    else (mkEffs ++ [Effect.logDebug fp], RuleStep.panicked)

/-- The `for` loop of `start_file_watcher` over the rule table.  Returns the
accumulated effects and, unless a `watch` call panicked (`none`), the list
of file paths for which a watch was registered. -/
def registerRules (w : World) :
    List (String × String) → List Effect × Option (List String)
  | [] => ([], some [])
  | (fp, bd) :: rest =>
    let r := processRule w fp bd
    match r.2 with
    | RuleStep.panicked => (r.1, none)
    | RuleStep.skipped =>
      let rr := registerRules w rest
      (r.1 ++ rr.1, rr.2)
    | RuleStep.watched =>
      let rr := registerRules w rest
      (r.1 ++ rr.1, rr.2.map (fp :: ·))

/-- How `start_file_watcher` ends. -/
inductive RegOutcome where
  | fatalInit
  | fatalWatch
  | ok (watched : List String)
  deriving DecidableEq

/-- Embedding of `start_file_watcher`: `notify::watcher(..).expect(..)`
panics if the watcher cannot be constructed; otherwise each rule is
validated and registered in turn. -/
def start_file_watcher (w : World) (table : List (String × String)) :
    List Effect × RegOutcome :=
  if !w.watcherInitOk then ([], RegOutcome.fatalInit)
  else
    let r := registerRules w table
    match r.2 with
    | none => (r.1, RegOutcome.fatalWatch)
    | some ws => (r.1, RegOutcome.ok ws)

/-! ### Configuration parsing (`parse_config_file`) and `main` -/

/-- One entry of the `rules` list in the YAML configuration. -/
structure BackupRule where
  file_path : String
  backup_dir_path : String
  deriving DecidableEq

/-- Canonicalize both paths of every rule, in configuration order; `none`
models the `expect` panic on the first path that fails to canonicalize. -/
def canonRules (canon : String → Option String) :
    List BackupRule → Option (List (String × String))
  | [] => some []
  | r :: rest =>
    match canon r.file_path, canon r.backup_dir_path with
    | some f, some d => (canonRules canon rest).map ((f, d) :: ·)
    | _, _ => none

/-- Embedding of `parse_config_file`: canonicalize every rule's paths
(panicking on failure) and collect the pairs into a `HashMap`. -/
def parse_config_file (canon : String → Option String)
    (rules : List BackupRule) : Option (List (String × String)) :=
  (canonRules canon rules).map buildTable

/-- How a run of `main` ends (over a finite prefix of the event stream). -/
inductive MainOutcome where
  | configAbort
  | watcherAbort
  | recvAbort
  | streamEnded
  deriving DecidableEq

/-- Embedding of `main` after the configuration file is opened: parse the
configuration (panicking on canonicalization failure), start the watcher,
then run the dispatch loop over the received items. -/
def runMain (w : World) (rules : List BackupRule) (stream : List RecvItem) :
    List Effect × MainOutcome :=
  match parse_config_file w.canon rules with
  | none => ([], MainOutcome.configAbort)
  | some table =>
    let r := start_file_watcher w table
    match r.2 with
    | RegOutcome.fatalInit => (r.1, MainOutcome.watcherAbort)
    | RegOutcome.fatalWatch => (r.1, MainOutcome.watcherAbort)
    | RegOutcome.ok _ =>
      let d := dispatchLoop w table stream
      (r.1 ++ d.1,
        match d.2 with
        | LoopOutcome.panicked => MainOutcome.recvAbort
        | LoopOutcome.ranOut => MainOutcome.streamEnded)

/-! ### Concrete worlds used to instantiate the theorems -/

/-- A world in which every oracle operation succeeds. -/
def wOk : World where
  canon := fun p => some p
  isFile := fun _ => true
  pathExists := fun _ => false
  isDir := fun _ => true
  mkdirOk := fun _ => true
  watcherInitOk := true
  watchOk := fun _ => true
  fileNameOf := fun p => some p
  osStrOk := fun _ => true
  copyOk := fun _ _ => true
  now := ⟨2024, 3, 1, 12, 0, 0, 123456⟩

/-- Like `wOk`, but every `watcher.watch` call fails. -/
def wNoWatch : World :=
  { wOk with watchOk := fun _ => false }

/-- Like `wOk`, but every `create_dir_all` call fails. -/
def wNoMkdir : World :=
  { wOk with mkdirOk := fun _ => false }

/-- Like `wOk`, but no path can be canonicalized. -/
def wNoCanon : World :=
  { wOk with canon := fun _ => none }

/-- Like `wOk`, but only the path "good" is a regular file. -/
def wOneFile : World :=
  { wOk with isFile := fun p => p == "good" }

/-- Uniqueness of keys: every key occurs at most once.  This holds for every
table produced by `buildTable` (see `tableWF_buildTable`). -/
def TableWF (t : List (String × String)) : Prop :=
  ∀ q, countKey t q ≤ 1

/-! ### Lemmas about the rule table -/

theorem hmGet_hmInsert (t : List (String × String)) (k v q : String) :
    hmGet (hmInsert t k v) q = if k = q then some v else hmGet t q := by
  induction t with
  | nil => rfl
  | cons a rest ih =>
    obtain ⟨a1, a2⟩ := a
    by_cases hak : a1 = k
    · subst hak
      simp only [hmInsert, if_pos rfl, hmGet]
      by_cases h1 : a1 = q <;> simp [h1]
    · simp only [hmInsert, if_neg hak, hmGet, ih]
      by_cases h1 : a1 = q <;> by_cases h2 : k = q <;> simp [h1, h2]
      exact absurd (h1.trans h2.symm) hak

theorem hmGet_foldl (rules : List (String × String)) :
    ∀ (t : List (String × String)) (q : String),
      hmGet (rules.foldl (fun acc kv => hmInsert acc kv.1 kv.2) t) q =
        match lastMatch rules q with
        | some v => some v
        | none => hmGet t q := by
  induction rules with
  | nil => intro t q; rfl
  | cons r rest ih =>
    intro t q
    obtain ⟨k, v⟩ := r
    simp only [List.foldl_cons]
    rw [ih]
    simp only [lastMatch]
    cases hl : lastMatch rest q with
    | some w => rfl
    | none =>
      simp only [hmGet_hmInsert]
      by_cases hkq : k = q <;> simp [hkq]

theorem hmGet_buildTable (rules : List (String × String)) (q : String) :
    hmGet (buildTable rules) q = lastMatch rules q := by
  have h := hmGet_foldl rules [] q
  simp only [buildTable]
  rw [h]
  cases lastMatch rules q <;> rfl

theorem countKey_zero_hmInsert (t : List (String × String)) (k v q : String)
    (h0 : countKey t q = 0) (hk : k ≠ q) : countKey (hmInsert t k v) q = 0 := by
  induction t with
  | nil => simp [hmInsert, countKey, hk]
  | cons a rest ih =>
    obtain ⟨a1, a2⟩ := a
    simp only [countKey] at h0
    by_cases ha : a1 = q
    · simp [ha] at h0
    · simp only [if_neg ha, Nat.zero_add] at h0
      by_cases hak : a1 = k
      · simp [hmInsert, hak, countKey, hk, h0]
      · simp [hmInsert, hak, countKey, ha, ih h0]

theorem tableWF_hmInsert (k v : String) :
    ∀ t : List (String × String), TableWF t → TableWF (hmInsert t k v) := by
  intro t
  induction t with
  | nil =>
    intro _ q
    simp only [hmInsert, countKey]
    by_cases h : k = q <;> simp [h]
  | cons a rest ih =>
    intro h q
    obtain ⟨a1, a2⟩ := a
    have hrest : TableWF rest := by
      intro q'
      have hq := h q'
      simp only [countKey] at hq
      omega
    by_cases hak : a1 = k
    · subst hak
      have hq := h q
      simp only [hmInsert, if_pos rfl, countKey] at hq ⊢
      exact hq
    · simp only [hmInsert, if_neg hak, countKey]
      by_cases h1 : a1 = q
      · subst h1
        have hq := h a1
        simp [countKey] at hq
        have h0 : countKey rest a1 = 0 := by omega
        have hz : countKey (hmInsert rest k v) a1 = 0 :=
          countKey_zero_hmInsert rest k v a1 h0 (fun hh => hak hh.symm)
        simp [hz]
      · simp only [if_neg h1, Nat.zero_add]
        exact ih hrest q

theorem tableWF_foldl (rules : List (String × String)) :
    ∀ t, TableWF t →
      TableWF (rules.foldl (fun acc kv => hmInsert acc kv.1 kv.2) t) := by
  induction rules with
  | nil => intro t h; exact h
  | cons r rest ih => intro t h; exact ih _ (tableWF_hmInsert r.1 r.2 t h)

theorem tableWF_buildTable (rules : List (String × String)) :
    TableWF (buildTable rules) :=
  tableWF_foldl rules [] (fun _ => Nat.zero_le 1)

theorem countKey_pos_of_hmGet (t : List (String × String)) (q v : String)
    (h : hmGet t q = some v) : 1 ≤ countKey t q := by
  induction t with
  | nil => simp [hmGet] at h
  | cons a rest ih =>
    obtain ⟨a1, a2⟩ := a
    simp only [hmGet] at h
    by_cases ha : a1 = q
    · simp [countKey, ha]
    · simp only [if_neg ha] at h
      simp only [countKey, if_neg ha, Nat.zero_add]
      exact ih h

theorem lastMatch_isSome_of_pos (rules : List (String × String)) (q : String)
    (h : 1 ≤ countKey rules q) : ∃ v, lastMatch rules q = some v := by
  induction rules with
  | nil => simp [countKey] at h
  | cons a rest ih =>
    obtain ⟨a1, a2⟩ := a
    simp only [countKey] at h
    simp only [lastMatch]
    cases hl : lastMatch rest q with
    | some w => exact ⟨w, rfl⟩
    | none =>
      by_cases ha : a1 = q
      · exact ⟨a2, by simp [ha]⟩
      · simp only [if_neg ha, Nat.zero_add] at h
        obtain ⟨w, hw⟩ := ih h
        simp [hw] at hl

/-- C9: when the configuration declares two or more rules with the same
canonical watched-file path, the rule table built by `parse_config_file`
keeps exactly one entry for that key, whose backup directory comes from the
last such rule in configuration order. -/
theorem c9_duplicate_rules_last_writer_wins
    (canon : String → Option String) (cfg : List BackupRule)
    (pairs table : List (String × String)) (k : String)
    (hc : canonRules canon cfg = some pairs)
    (hp : parse_config_file canon cfg = some table)
    (h : 2 ≤ countKey pairs k) :
    countKey table k = 1 ∧ hmGet table k = lastMatch pairs k := by
  have htab : table = buildTable pairs := by
    have hps : parse_config_file canon cfg = some (buildTable pairs) := by
      simp [parse_config_file, hc]
    rw [hps] at hp
    exact (Option.some.inj hp).symm
  subst htab
  refine ⟨?_, hmGet_buildTable pairs k⟩
  obtain ⟨v, hv⟩ := lastMatch_isSome_of_pos pairs k (by omega)
  have h2 : hmGet (buildTable pairs) k = some v :=
    (hmGet_buildTable pairs k).trans hv
  have h3 := countKey_pos_of_hmGet _ _ _ h2
  have h4 := tableWF_buildTable pairs k
  omega

/-- Witness for C9 at a configuration declaring the key "a" twice. -/
theorem c9_duplicate_rules_last_writer_wins_witness :
    countKey [("a", "2")] "a" = 1 ∧
      hmGet [("a", "2")] "a" = lastMatch [("a", "1"), ("a", "2")] "a" :=
  c9_duplicate_rules_last_writer_wins (fun p => some p)
    [⟨"a", "1"⟩, ⟨"a", "2"⟩] [("a", "1"), ("a", "2")] [("a", "2")] "a"
    (by decide) (by decide) (by decide)

/-! ### Backup writer and dispatcher claims -/

/-- C1 (counterexample): the claim says base name first, then timestamp;
but at base name "data.txt" and captured instant 2024-03-01T12:00:00.123456Z
the backup file name computed by `process_write_event` is not
"data.txt-20240301-120000-123456". -/
theorem c1_backup_name_counterexample :
    backupFileName ⟨2024, 3, 1, 12, 0, 0, 123456⟩ "data.txt" ≠
      "data.txt-20240301-120000-123456" := by
  decide

/-- C1 (amended): the backup file name is the UTC timestamp formatted
YYYYMMDD-HHMMSS-ffffff, followed by a hyphen, followed by the base name,
i.e. "T-B"; the copy produced by a successful write-committed event targets
`backup_dir/T-B`, and base name "data.txt" at instant
2024-03-01T12:00:00.123456Z yields "20240301-120000-123456-data.txt". -/
theorem c1_backup_name (w : World) (table : List (String × String))
    (p cp bd base : String)
    (h1 : w.canon p = some cp) (h2 : hmGet table cp = some bd)
    (h3 : w.fileNameOf cp = some base) (h4 : w.osStrOk base = true)
    (h5 : w.copyOk cp (bd ++ "/" ++ backupFileName w.now base) = true) :
    (process_write_event w table p).2 =
      [Effect.logDebug cp,
        Effect.copyFile cp (bd ++ "/" ++ (formatTimestamp w.now ++ "-" ++ base))] ∧
    backupFileName ⟨2024, 3, 1, 12, 0, 0, 123456⟩ "data.txt" =
      "20240301-120000-123456-data.txt" := by
  refine ⟨?_, rfl⟩
  have h5a : w.copyOk cp (bd ++ "/" ++ (formatTimestamp w.now ++ "-" ++ base)) =
      true := h5
  simp [process_write_event, h1, h2, h3, h4, h5a, backupFileName]

/-- Witness for C1 at a concrete world and table. -/
theorem c1_backup_name_witness :
    (process_write_event wOk [("f", "d")] "f").2 =
      [Effect.logDebug "f",
        Effect.copyFile "f" ("d" ++ "/" ++ (formatTimestamp wOk.now ++ "-" ++ "f"))] ∧
    backupFileName ⟨2024, 3, 1, 12, 0, 0, 123456⟩ "data.txt" =
      "20240301-120000-123456-data.txt" :=
  c1_backup_name wOk [("f", "d")] "f" "f" "d" "f" rfl rfl rfl rfl rfl

/-- C4: a write-committed event whose canonicalized path has no entry in the
rule table produces `NoRuleForPath` and performs zero filesystem writes
(indeed no effect at all: the copy step is never reached). -/
theorem c4_no_rule_no_write (w : World) (table : List (String × String))
    (p cp : String) (h1 : w.canon p = some cp) (h2 : hmGet table cp = none) :
    process_write_event w table p =
      (Except.error BackupError.noRuleForPath, []) := by
  simp [process_write_event, h1, h2]

/-- Witness for C4 at an empty rule table. -/
theorem c4_no_rule_no_write_witness :
    process_write_event wOk [] "f" =
      (Except.error BackupError.noRuleForPath, []) :=
  c4_no_rule_no_write wOk [] "f" "f" rfl rfl

/-- C3: every event other than write-committed is only logged: each of its
effects is a log line, and none is a filesystem write or a backup action. -/
theorem c3_only_write_acts (w : World) (table : List (String × String))
    (e : DebouncedEvent) (h : ∀ p, e ≠ DebouncedEvent.write p) :
    ((handleEvent w table e).all fun eff => eff.isLog && !eff.isFsWrite) =
      true := by
  cases e <;> first | exact absurd rfl (h _) | rfl

/-- Witness for C3 at a create event. -/
theorem c3_only_write_acts_witness :
    ((handleEvent wOk [] (DebouncedEvent.create "x")).all
        fun eff => eff.isLog && !eff.isFsWrite) = true :=
  c3_only_write_acts wOk [] (DebouncedEvent.create "x")
    (fun _ h => DebouncedEvent.noConfusion h)

/-- C2: when handling a write-committed event returns a `BackupError`, the
dispatch loop logs the error and continues: the effects and outcome of the
remaining stream are exactly those of the loop run on the rest. -/
theorem c2_backup_failure_nonfatal (w : World) (table : List (String × String))
    (p : String) (rest : List RecvItem) (err : BackupError)
    (h : (process_write_event w table p).1 = Except.error err) :
    Effect.logError p ∈ handleEvent w table (DebouncedEvent.write p) ∧
    dispatchLoop w table (RecvItem.event (DebouncedEvent.write p) :: rest) =
      (handleEvent w table (DebouncedEvent.write p) ++
          (dispatchLoop w table rest).1,
        (dispatchLoop w table rest).2) := by
  refine ⟨?_, rfl⟩
  simp [handleEvent, h]

/-- Witness for C2 at a missing-rule failure. -/
theorem c2_backup_failure_nonfatal_witness :
    Effect.logError "f" ∈ handleEvent wOk [] (DebouncedEvent.write "f") ∧
    dispatchLoop wOk [] [RecvItem.event (DebouncedEvent.write "f")] =
      (handleEvent wOk [] (DebouncedEvent.write "f") ++
          (dispatchLoop wOk [] []).1,
        (dispatchLoop wOk [] []).2) :=
  c2_backup_failure_nonfatal wOk [] "f" [] BackupError.noRuleForPath rfl

/-- C7: the dispatch loop reaches the fatal `unwrap` panic exactly when the
received stream delivers a channel-disconnection signal, after any number of
ordinary events; no event by itself terminates the loop. -/
theorem c7_only_disconnect_fatal (w : World) (table : List (String × String))
    (items : List RecvItem) :
    (dispatchLoop w table items).2 = LoopOutcome.panicked ↔
      ∃ (evs : List DebouncedEvent) (rest : List RecvItem),
        items = List.map RecvItem.event evs ++ RecvItem.disconnected :: rest := by
  induction items with
  | nil =>
    simp only [dispatchLoop]
    constructor
    · intro hh; cases hh
    · rintro ⟨evs, rest, hh⟩
      cases evs <;> simp at hh
  | cons it tail ih =>
    cases it with
    | disconnected =>
      exact ⟨fun _ => ⟨[], tail, rfl⟩, fun _ => rfl⟩
    | event e =>
      simp only [dispatchLoop]
      rw [ih]
      constructor
      · rintro ⟨evs, rest, hh⟩
        exact ⟨e :: evs, rest, by simp [hh]⟩
      · rintro ⟨evs, rest, hh⟩
        cases evs with
        | nil => simp at hh
        | cons e2 evs2 =>
          simp only [List.map_cons, List.cons_append, List.cons.injEq] at hh
          exact ⟨evs2, rest, hh.2⟩

/-! ### Lemmas about the watch registrar -/

theorem processRule_step (w : World) (fp bd : String) :
    (processRule w fp bd).2 =
      (if ruleValid w fp bd then
        (if w.watchOk fp then RuleStep.watched else RuleStep.panicked)
      else RuleStep.skipped) := by
  simp only [processRule, ruleValid]
  by_cases h1 : w.isFile fp
  · by_cases h2 : w.pathExists bd && !w.isDir bd
    · simp [h1, h2]
    · by_cases h3 : w.watchOk fp <;> simp [h1, h2, h3]
  · simp [h1]

theorem processRule_panicked (w : World) (fp bd : String) :
    (processRule w fp bd).2 = RuleStep.panicked ↔
      ruleValid w fp bd = true ∧ w.watchOk fp = false := by
  rw [processRule_step]
  by_cases hv : ruleValid w fp bd <;> by_cases hw : w.watchOk fp <;>
    simp [hv, hw]

theorem processRule_watched (w : World) (fp bd : String)
    (hv : ruleValid w fp bd = true) (hw : w.watchOk fp = true) :
    (processRule w fp bd).2 = RuleStep.watched := by
  rw [processRule_step]
  simp [hv, hw]

theorem processRule_skipped (w : World) (fp bd : String)
    (hv : ruleValid w fp bd = false) :
    (processRule w fp bd).2 = RuleStep.skipped := by
  rw [processRule_step]
  simp [hv]

theorem processRule_watchRegister (w : World) (fp bd x : String)
    (h : Effect.watchRegister x ∈ (processRule w fp bd).1) :
    x = fp ∧ ruleValid w fp bd = true ∧ w.watchOk fp = true := by
  simp only [processRule] at h
  by_cases h1 : w.isFile fp
  · by_cases h2 : w.pathExists bd && !w.isDir bd
    · simp [h1, h2] at h
    · by_cases h3 : w.watchOk fp
      · by_cases h4 : w.mkdirOk bd <;> simp [h1, h2, h3, h4] at h <;>
          exact ⟨h, by simp [ruleValid, h1, h2], h3⟩
      · by_cases h4 : w.mkdirOk bd <;> simp [h1, h2, h3, h4] at h
  · simp [h1] at h

theorem processRule_invalid_logError (w : World) (fp bd : String)
    (hv : ruleValid w fp bd = false) :
    Effect.logError fp ∈ (processRule w fp bd).1 ∨
      Effect.logError bd ∈ (processRule w fp bd).1 := by
  simp only [processRule]
  by_cases h1 : w.isFile fp
  · by_cases h2 : w.pathExists bd && !w.isDir bd
    · simp [h1, h2]
    · exact absurd hv (by simp [ruleValid, h1, h2])
  · simp [h1]

theorem processRule_mkdirFail (w : World) (fp bd : String)
    (hv : ruleValid w fp bd = true) (hm : w.mkdirOk bd = false)
    (hw : w.watchOk fp = true) :
    (processRule w fp bd).1 =
      [Effect.mkdirAll bd, Effect.logError bd, Effect.logDebug fp,
        Effect.watchRegister fp] := by
  simp only [ruleValid, Bool.and_eq_true] at hv
  have hnd : (w.pathExists bd && !w.isDir bd) = false := by
    cases hb : (w.pathExists bd && !w.isDir bd)
    · rfl
    · rw [hb] at hv
      exact absurd hv.2 (by simp)
  simp [processRule, hv.1, hnd, hm, hw]

theorem registerRules_cons_effects (w : World) (a1 a2 : String)
    (rest : List (String × String))
    (h : (processRule w a1 a2).2 ≠ RuleStep.panicked) :
    (registerRules w ((a1, a2) :: rest)).1 =
      (processRule w a1 a2).1 ++ (registerRules w rest).1 := by
  cases hs : (processRule w a1 a2).2 with
  | panicked => exact absurd hs h
  | skipped => simp [registerRules, hs]
  | watched => simp [registerRules, hs]

theorem registerRules_mem_effects (w : World) :
    ∀ table : List (String × String),
      (∀ fp bd, (fp, bd) ∈ table →
        ruleValid w fp bd = true → w.watchOk fp = true) →
      ∀ fp bd, (fp, bd) ∈ table →
        ∀ eff ∈ (processRule w fp bd).1, eff ∈ (registerRules w table).1 := by
  intro table
  induction table with
  | nil => intro _ fp bd h; simp at h
  | cons a rest ih =>
    intro hw fp bd hmem eff heff
    obtain ⟨a1, a2⟩ := a
    have hstep : (processRule w a1 a2).2 ≠ RuleStep.panicked := by
      intro hp
      rw [processRule_panicked] at hp
      have hh := hw a1 a2 (List.mem_cons_self _ _) hp.1
      rw [hp.2] at hh
      cases hh
    rw [registerRules_cons_effects w a1 a2 rest hstep, List.mem_append]
    rcases List.mem_cons.mp hmem with heq | hmem2
    · injection heq with e1 e2
      subst e1; subst e2
      exact Or.inl heff
    · exact Or.inr (ih
        (fun fp2 bd2 hm hv => hw fp2 bd2 (List.mem_cons_of_mem _ hm) hv)
        fp bd hmem2 eff heff)

theorem registerRules_watchRegister (w : World) :
    ∀ table : List (String × String), ∀ x : String,
      Effect.watchRegister x ∈ (registerRules w table).1 →
      ∃ bd, (x, bd) ∈ table ∧ ruleValid w x bd = true := by
  intro table
  induction table with
  | nil => intro x h; simp [registerRules] at h
  | cons a rest ih =>
    intro x h
    obtain ⟨a1, a2⟩ := a
    cases hs : (processRule w a1 a2).2 with
    | panicked =>
      simp only [registerRules, hs] at h
      obtain ⟨he, hv, _⟩ := processRule_watchRegister w a1 a2 x h
      exact ⟨a2, by simp [he], he ▸ hv⟩
    | skipped =>
      simp only [registerRules, hs, List.mem_append] at h
      rcases h with h | h
      · obtain ⟨he, hv, _⟩ := processRule_watchRegister w a1 a2 x h
        exact ⟨a2, by simp [he], he ▸ hv⟩
      · obtain ⟨bd, hm, hv⟩ := ih x h
        exact ⟨bd, List.mem_cons_of_mem _ hm, hv⟩
    | watched =>
      simp only [registerRules, hs, List.mem_append] at h
      rcases h with h | h
      · obtain ⟨he, hv, _⟩ := processRule_watchRegister w a1 a2 x h
        exact ⟨a2, by simp [he], he ▸ hv⟩
      · obtain ⟨bd, hm, hv⟩ := ih x h
        exact ⟨bd, List.mem_cons_of_mem _ hm, hv⟩

theorem registerRules_some (w : World) :
    ∀ table : List (String × String),
      (∀ fp bd, (fp, bd) ∈ table →
        ruleValid w fp bd = true → w.watchOk fp = true) →
      ∃ ws, (registerRules w table).2 = some ws ∧
        ∀ x, x ∈ ws ↔ ∃ bd, (x, bd) ∈ table ∧ ruleValid w x bd = true := by
  intro table
  induction table with
  | nil => intro _; exact ⟨[], rfl, by simp⟩
  | cons a rest ih =>
    intro hw
    obtain ⟨a1, a2⟩ := a
    obtain ⟨ws, hws, hiff⟩ := ih
      (fun fp bd hm hv => hw fp bd (List.mem_cons_of_mem _ hm) hv)
    by_cases hv : ruleValid w a1 a2 = true
    · have hwk : w.watchOk a1 = true := hw a1 a2 (List.mem_cons_self _ _) hv
      have hs := processRule_watched w a1 a2 hv hwk
      refine ⟨a1 :: ws, by simp [registerRules, hs, hws], ?_⟩
      intro x
      simp only [List.mem_cons, hiff]
      constructor
      · rintro (rfl | ⟨bd, hm, hvx⟩)
        · exact ⟨a2, Or.inl rfl, hv⟩
        · exact ⟨bd, Or.inr hm, hvx⟩
      · rintro ⟨bd, hm, hvx⟩
        rcases hm with heq | hm2
        · injection heq with e1 _
          exact Or.inl e1
        · exact Or.inr ⟨bd, hm2, hvx⟩
    · have hs := processRule_skipped w a1 a2 (by
        cases hvb : ruleValid w a1 a2
        · rfl
        · exact absurd hvb hv)
      refine ⟨ws, by simp [registerRules, hs, hws], ?_⟩
      intro x
      rw [hiff]
      constructor
      · rintro ⟨bd, hm, hvx⟩
        exact ⟨bd, List.mem_cons_of_mem _ hm, hvx⟩
      · rintro ⟨bd, hm, hvx⟩
        rcases List.mem_cons.mp hm with heq | hm2
        · injection heq with e1 e2
          subst e1; subst e2
          exact absurd hvx hv
        · exact ⟨bd, hm2, hvx⟩

theorem registerRules_none (w : World) :
    ∀ table : List (String × String),
      (registerRules w table).2 = none →
      ∃ fp bd, (fp, bd) ∈ table ∧ ruleValid w fp bd = true ∧
        w.watchOk fp = false := by
  intro table
  induction table with
  | nil => intro h; simp [registerRules] at h
  | cons a rest ih =>
    intro h
    obtain ⟨a1, a2⟩ := a
    cases hs : (processRule w a1 a2).2 with
    | panicked =>
      obtain ⟨hv, hwk⟩ := (processRule_panicked w a1 a2).mp hs
      exact ⟨a1, a2, List.mem_cons_self _ _, hv, hwk⟩
    | skipped =>
      simp only [registerRules, hs] at h
      obtain ⟨fp, bd, hm, hv, hwk⟩ := ih h
      exact ⟨fp, bd, List.mem_cons_of_mem _ hm, hv, hwk⟩
    | watched =>
      simp only [registerRules, hs] at h
      have h2 : (registerRules w rest).2 = none := by
        cases hr : (registerRules w rest).2 with
        | none => rfl
        | some ws => rw [hr] at h; cases h
      obtain ⟨fp, bd, hm, hv, hwk⟩ := ih h2
      exact ⟨fp, bd, List.mem_cons_of_mem _ hm, hv, hwk⟩

theorem countKey_zero_not_mem (t : List (String × String)) (q : String)
    (h : countKey t q = 0) : ∀ v, (q, v) ∉ t := by
  induction t with
  | nil => simp
  | cons a rest ih =>
    obtain ⟨a1, a2⟩ := a
    simp only [countKey] at h
    by_cases ha : a1 = q
    · simp [ha] at h
    · simp only [if_neg ha, Nat.zero_add] at h
      intro v hv
      rcases List.mem_cons.mp hv with heq | hm
      · injection heq with e1 _
        exact ha e1.symm
      · exact ih h v hm

theorem tableWF_key_fun (t : List (String × String)) :
    TableWF t → ∀ fp bd bd', (fp, bd) ∈ t → (fp, bd') ∈ t → bd = bd' := by
  induction t with
  | nil => intro _ fp bd bd' h; simp at h
  | cons a rest ih =>
    intro hwf fp bd bd' h1 h2
    obtain ⟨a1, a2⟩ := a
    have hwrest : TableWF rest := by
      intro q
      have hq := hwf q
      simp only [countKey] at hq
      omega
    rcases List.mem_cons.mp h1 with e1 | m1 <;>
      rcases List.mem_cons.mp h2 with e2 | m2
    · injection e1 with f1 g1
      injection e2 with f2 g2
      rw [g1, g2]
    · injection e1 with f1 g1
      subst f1
      have h0 : countKey rest fp = 0 := by
        have hq := hwf fp
        simp [countKey] at hq
        omega
      exact absurd m2 (countKey_zero_not_mem rest fp h0 bd')
    · injection e2 with f2 g2
      subst f2
      have h0 : countKey rest fp = 0 := by
        have hq := hwf fp
        simp [countKey] at hq
        omega
      exact absurd m1 (countKey_zero_not_mem rest fp h0 bd)
    · exact ih hwrest fp bd bd' m1 m2

/-! ### Registrar and startup claims -/

/-- C5 (counterexample): with the notification subsystem constructed
successfully, a failing `watcher.watch` call on an individual file path
still aborts the process (the `expect` in the registration loop),
contradicting the claim that only watcher construction is fatal. -/
theorem c5_fatal_counterexample :
    wNoWatch.watcherInitOk = true ∧
      (start_file_watcher wNoWatch [("f", "d")]).2 = RegOutcome.fatalWatch :=
  ⟨rfl, rfl⟩

/-- C5 (amended): besides watcher construction failure, the registrar also
aborts when registering an individual validated file path with the watcher
fails; per-rule validation failures and directory-creation failures never
abort: with the subsystem constructed, an abort implies some validated
rule's watch call failed, and if every validated rule can be watched,
registration completes. -/
theorem c5_registrar_abort_conditions (w : World)
    (table : List (String × String)) (hinit : w.watcherInitOk = true) :
    (start_file_watcher w table).2 ≠ RegOutcome.fatalInit ∧
    ((∀ fp bd, (fp, bd) ∈ table →
        ruleValid w fp bd = true → w.watchOk fp = true) →
      ∃ ws, (start_file_watcher w table).2 = RegOutcome.ok ws) ∧
    ((start_file_watcher w table).2 = RegOutcome.fatalWatch →
      ∃ fp bd, (fp, bd) ∈ table ∧ ruleValid w fp bd = true ∧
        w.watchOk fp = false) := by
  have hi : (!w.watcherInitOk) = false := by rw [hinit]; rfl
  refine ⟨?_, ?_, ?_⟩
  · simp only [start_file_watcher, hi, Bool.false_eq_true, if_false]
    cases hr : (registerRules w table).2 <;> simp [hr]
  · intro hw
    obtain ⟨ws, hws, _⟩ := registerRules_some w table hw
    exact ⟨ws, by simp [start_file_watcher, hi, hws]⟩
  · intro habort
    simp only [start_file_watcher, hi, Bool.false_eq_true, if_false] at habort
    cases hr : (registerRules w table).2 with
    | none => exact registerRules_none w table hr
    | some ws =>
      rw [hr] at habort
      simp at habort

/-- Witness for C5 (amended) at a single valid rule. -/
theorem c5_registrar_abort_conditions_witness :
    (start_file_watcher wOk [("f", "d")]).2 ≠ RegOutcome.fatalInit ∧
    ((∀ fp bd, (fp, bd) ∈ [("f", "d")] →
        ruleValid wOk fp bd = true → wOk.watchOk fp = true) →
      ∃ ws, (start_file_watcher wOk [("f", "d")]).2 = RegOutcome.ok ws) ∧
    ((start_file_watcher wOk [("f", "d")]).2 = RegOutcome.fatalWatch →
      ∃ fp bd, (fp, bd) ∈ [("f", "d")] ∧ ruleValid wOk fp bd = true ∧
        wOk.watchOk fp = false) :=
  c5_registrar_abort_conditions wOk [("f", "d")] rfl

/-- C8: every rule that fails validation (watched path not a regular file,
or backup path an existing non-directory) is skipped with an error log: no
watch is registered for it and the process does not abort, while every
validated rule is still registered. -/
theorem c8_invalid_rules_skipped (w : World) (table : List (String × String))
    (hinit : w.watcherInitOk = true) (hwf : TableWF table)
    (hw : ∀ fp bd, (fp, bd) ∈ table →
      ruleValid w fp bd = true → w.watchOk fp = true) :
    ∃ ws, (start_file_watcher w table).2 = RegOutcome.ok ws ∧
      (∀ fp bd, (fp, bd) ∈ table → ruleValid w fp bd = false →
        fp ∉ ws ∧
        Effect.watchRegister fp ∉ (start_file_watcher w table).1 ∧
        (Effect.logError fp ∈ (start_file_watcher w table).1 ∨
          Effect.logError bd ∈ (start_file_watcher w table).1)) ∧
      (∀ fp bd, (fp, bd) ∈ table → ruleValid w fp bd = true → fp ∈ ws) := by
  have hi : (!w.watcherInitOk) = false := by rw [hinit]; rfl
  obtain ⟨ws, hws, hiff⟩ := registerRules_some w table hw
  have heff : (start_file_watcher w table).1 = (registerRules w table).1 := by
    simp [start_file_watcher, hi, hws]
  have hout : (start_file_watcher w table).2 = RegOutcome.ok ws := by
    simp [start_file_watcher, hi, hws]
  refine ⟨ws, hout, ?_, ?_⟩
  · intro fp bd hmem hv
    refine ⟨?_, ?_, ?_⟩
    · intro hin
      obtain ⟨bd2, hm2, hv2⟩ := (hiff fp).mp hin
      have hbd := tableWF_key_fun table hwf fp bd2 bd hm2 hmem
      rw [hbd, hv] at hv2
      cases hv2
    · rw [heff]
      intro hin
      obtain ⟨bd2, hm2, hv2⟩ := registerRules_watchRegister w table fp hin
      have hbd := tableWF_key_fun table hwf fp bd2 bd hm2 hmem
      rw [hbd, hv] at hv2
      cases hv2
    · rw [heff]
      rcases processRule_invalid_logError w fp bd hv with hl | hl
      · exact Or.inl (registerRules_mem_effects w table hw fp bd hmem _ hl)
      · exact Or.inr (registerRules_mem_effects w table hw fp bd hmem _ hl)
  · intro fp bd hmem hv
    exact (hiff fp).mpr ⟨bd, hmem, hv⟩

/-- Witness for C8 with one invalid and one valid rule. -/
theorem c8_invalid_rules_skipped_witness :
    ∃ ws,
      (start_file_watcher wOneFile [("bad", "d1"), ("good", "d2")]).2 =
        RegOutcome.ok ws ∧
      (∀ fp bd, (fp, bd) ∈ [("bad", "d1"), ("good", "d2")] →
        ruleValid wOneFile fp bd = false →
        fp ∉ ws ∧
        Effect.watchRegister fp ∉
          (start_file_watcher wOneFile [("bad", "d1"), ("good", "d2")]).1 ∧
        (Effect.logError fp ∈
            (start_file_watcher wOneFile [("bad", "d1"), ("good", "d2")]).1 ∨
          Effect.logError bd ∈
            (start_file_watcher wOneFile [("bad", "d1"), ("good", "d2")]).1)) ∧
      (∀ fp bd, (fp, bd) ∈ [("bad", "d1"), ("good", "d2")] →
        ruleValid wOneFile fp bd = true → fp ∈ ws) :=
  c8_invalid_rules_skipped wOneFile [("bad", "d1"), ("good", "d2")] rfl
    (by
      intro q
      by_cases h1 : "bad" = q <;> by_cases h2 : "good" = q <;>
        simp [countKey, h1, h2]
      exact absurd (h1.trans h2.symm) (by decide))
    (fun _ _ _ _ => rfl)

/-- C10: when creating a rule's backup directory fails, the rule is not
skipped: the failure is logged and the watched file is still registered
with the watcher. -/
theorem c10_mkdir_failure_still_watched (w : World)
    (table : List (String × String)) (fp bd : String)
    (hinit : w.watcherInitOk = true)
    (hw : ∀ fp2 bd2, (fp2, bd2) ∈ table →
      ruleValid w fp2 bd2 = true → w.watchOk fp2 = true)
    (hmem : (fp, bd) ∈ table) (hv : ruleValid w fp bd = true)
    (hm : w.mkdirOk bd = false) :
    Effect.logError bd ∈ (start_file_watcher w table).1 ∧
      Effect.watchRegister fp ∈ (start_file_watcher w table).1 := by
  have hi : (!w.watcherInitOk) = false := by rw [hinit]; rfl
  obtain ⟨ws, hws, _⟩ := registerRules_some w table hw
  have heff : (start_file_watcher w table).1 = (registerRules w table).1 := by
    simp [start_file_watcher, hi, hws]
  have hwk : w.watchOk fp = true := hw fp bd hmem hv
  have hpr := processRule_mkdirFail w fp bd hv hm hwk
  rw [heff]
  exact ⟨registerRules_mem_effects w table hw fp bd hmem _ (by rw [hpr]; simp),
    registerRules_mem_effects w table hw fp bd hmem _ (by rw [hpr]; simp)⟩

/-- Witness for C10 at a world where directory creation fails. -/
theorem c10_mkdir_failure_still_watched_witness :
    Effect.logError "d" ∈ (start_file_watcher wNoMkdir [("f", "d")]).1 ∧
      Effect.watchRegister "f" ∈ (start_file_watcher wNoMkdir [("f", "d")]).1 :=
  c10_mkdir_failure_still_watched wNoMkdir [("f", "d")] "f" "d" rfl
    (fun _ _ _ _ => rfl) (by simp) rfl rfl

theorem canonRules_none (canon : String → Option String) :
    ∀ (cfg : List BackupRule) (r : BackupRule), r ∈ cfg →
      (canon r.file_path = none ∨ canon r.backup_dir_path = none) →
      canonRules canon cfg = none := by
  intro cfg
  induction cfg with
  | nil => intro r h; simp at h
  | cons a rest ih =>
    intro r hmem hbad
    rcases List.mem_cons.mp hmem with heq | hm
    · subst heq
      rcases hbad with hb | hb
      · simp [canonRules, hb]
      · cases hf : canon r.file_path <;> simp [canonRules, hf, hb]
    · have hrec := ih r hm hbad
      cases hf : canon a.file_path <;> cases hd : canon a.backup_dir_path <;>
        simp [canonRules, hf, hd, hrec]

/-- C6: if any rule's watched path or backup-directory path cannot be
canonicalized, configuration parsing panics: the rule table is never built,
`main` aborts before any watching begins, and the run has performed no
effect at all — in particular no filesystem mutation. -/
theorem c6_bad_canon_aborts_before_watching (w : World)
    (cfg : List BackupRule) (stream : List RecvItem) (r : BackupRule)
    (hmem : r ∈ cfg)
    (hbad : w.canon r.file_path = none ∨ w.canon r.backup_dir_path = none) :
    parse_config_file w.canon cfg = none ∧
      runMain w cfg stream = ([], MainOutcome.configAbort) := by
  have hc := canonRules_none w.canon cfg r hmem hbad
  exact ⟨by simp [parse_config_file, hc],
    by simp [runMain, parse_config_file, hc]⟩

/-- Witness for C6 at a world where canonicalization always fails. -/
theorem c6_bad_canon_aborts_before_watching_witness :
    parse_config_file wNoCanon.canon [⟨"f", "d"⟩] = none ∧
      runMain wNoCanon [⟨"f", "d"⟩] [] = ([], MainOutcome.configAbort) :=
  c6_bad_canon_aborts_before_watching wNoCanon [⟨"f", "d"⟩] [] ⟨"f", "d"⟩
    (by simp) (Or.inl rfl)

end Snapper
